import Mathlib

/-!
Verification of the segmentation and packing core of `src/ffmpeg/ffmpeg.go`
(package `ffmpeg` of the teoperator repository).

The Go code is shallowly embedded: `float64` values are modelled as `ℚ`,
Go strings as `String` / `List Char`, and the external `ffmpeg`,
`audiowaveform` and `convert` invocations are treated as opaque collaborators
(only the pure grouping / parsing / naming logic around them is modelled).
Helper functions `utils.GetStringInBetween` and `utils.ConvertToSeconds`
come from an external module whose source is not part of this repository;
they are modelled from the specification (§4.1 Timestamp Parser).
-/

namespace Teoperator

attribute [local semireducible] Rat.add Rat.sub Rat.mul Rat.inv

/-- `AudioSegment` mirrors the Go struct of the same name:
`Filename string; Start, End, Duration float64`, with `float64` modelled
as `ℚ`. -/
structure AudioSegment where
  Filename : String
  Start : ℚ
  End : ℚ
  Duration : ℚ
deriving DecidableEq, Repr

/-- Does `pat` occur at the head of `s`? (list-of-chars analogue of a
string's leading match, used to implement substring search). -/
def leads : List Char → List Char → Bool
  | [], _ => true
  | _ :: _, [] => false
  | a :: as, b :: bs => a = b && leads as bs

/-- Index of the first occurrence of `pat` in `s`, if any
(Go `strings.Index`). The empty pattern occurs at index 0. -/
def firstIdx (pat : List Char) : List Char → Option Nat
  | [] => if pat.isEmpty then some 0 else none
  | c :: rest =>
    if leads pat (c :: rest) then some 0
    else (firstIdx pat rest).map (· + 1)

/-- Go `strings.Contains` on char lists. -/
def strContains (s pat : List Char) : Bool := (firstIdx pat s).isSome

/-- Modelled from the spec: `utils.GetStringInBetween` (external module,
not in this repository's sources). Returns the substring strictly between
the first occurrence of `left` and the next occurrence of `right` after
it; empty if either marker is absent. -/
def getBetween (s left right : List Char) : List Char :=
  match firstIdx left s with
  | none => []
  | some i =>
    let after := s.drop (i + left.length)
    match firstIdx right after with
    | none => []
    | some j => after.take j

/-- Go `strings.Split(s, sep)` for a one-character separator, on char
lists: `splitOnCh sep s` never returns `[]` (an empty input gives
`[[]]`). -/
def splitOnCh (sep : Char) : List Char → List (List Char)
  | [] => [[]]
  | c :: rest =>
    if c = sep then [] :: splitOnCh sep rest
    else
      match splitOnCh sep rest with
      | [] => [[c]]
      | l :: ls => (c :: l) :: ls

/-- Strip leading and trailing whitespace. -/
def trimWs (l : List Char) : List Char :=
  ((l.dropWhile Char.isWhitespace).reverse.dropWhile Char.isWhitespace).reverse

/-- Numeric value of a digit string (caller checks the digits). -/
def digitsToNat (l : List Char) : Nat :=
  l.foldl (fun a c => 10 * a + (c.toNat - 48)) 0

/-- Modelled from the spec: parsing one "possibly fractional" numeric
field (`strconv.ParseFloat` inside `utils.ConvertToSeconds`, external
module). A non-empty decimal numeral, with an optional fractional part;
anything else is a parse error. -/
def parseNum (l : List Char) : Option ℚ :=
  match splitOnCh '.' l with
  | [w] =>
    if w.all Char.isDigit && !w.isEmpty then some (digitsToNat w) else none
  | [w, f] =>
    if w.all Char.isDigit && f.all Char.isDigit && !(w ++ f).isEmpty then
      some ((digitsToNat w : ℚ) + (digitsToNat f : ℚ) / 10 ^ f.length)
    else none
  | _ => none

/-- Modelled from the spec: `utils.ConvertToSeconds` (external module).
Trims whitespace, then parses either a plain number or a colon-separated
time code with 1–3 fields (`SS`, `MM:SS`, `HH:MM:SS`), converting to
total seconds; fails on malformed fields. -/
def convertToSeconds (l : List Char) : Option ℚ :=
  match splitOnCh ':' (trimWs l) with
  | [x] => parseNum x
  | [m, x] =>
    match parseNum m, parseNum x with
    | some m', some x' => some (60 * m' + x')
    | _, _ => none
  | [h, m, x] =>
    match parseNum h, parseNum m, parseNum x with
    | some h', some m', some x' => some (3600 * h' + 60 * m' + x')
    | _, _, _ => none
  | _ => none

/-- One iteration of the line loop of `SplitOnSilence` (ffmpeg.go lines
39–61). State is the in-progress segment plus the accumulated list; the
three branches mirror the Go `if`/`else if` chain, and a failed numeric
parse leaves the state unchanged (the Go code checks `err == nil` with a
branch-local `err`). -/
def lineStep (fname : String) (st : AudioSegment × List AudioSegment)
    (line : List Char) : AudioSegment × List AudioSegment :=
  let seg := st.1
  let acc := st.2
  if strContains line "silence_start".data then
    match convertToSeconds
        (getBetween (line ++ [' ']) "silence_start: ".data " ".data) with
    | some secs =>
      let seg' : AudioSegment :=
        { seg with End := secs, Filename := fname, Duration := secs - seg.Start }
      (seg', acc ++ [seg'])
    | none => (seg, acc)
  else if strContains line "silence_end".data then
    match convertToSeconds (getBetween line "silence_end: ".data " ".data) with
    | some secs => ({ seg with Start := secs }, acc)
    | none => (seg, acc)
  else if strContains line "time=".data then
    match convertToSeconds (getBetween line "time=".data " ".data) with
    | some secs =>
      let seg' : AudioSegment :=
        { seg with End := secs, Duration := secs - seg.Start }
      (seg', acc ++ [seg'])
    | none => (seg, acc)
  else (seg, acc)

/-- The raw candidate segments accumulated by the line loop of
`SplitOnSilence` over the diagnostic text `out` (before the duration
filter). The in-progress segment starts as the zero value with
`Start = 0`. -/
def accumulate (fname out : String) : List AudioSegment :=
  ((splitOnCh '\n' out.data).foldl (lineStep fname) (⟨"", 0, 0, 0⟩, [])).2

/-- The pure behaviour of `SplitOnSilence` (ffmpeg.go lines 26–77) as a
function of the diagnostic text `out` produced by the external
silence-detection pass: returns the pair of Go named results
`(segments, err)`, with `err` the error message string, if any.
Mirrors the Go control flow: the guard checks for `"silence_end"`; the
filter keeps `Duration > 0.1`; when the filter empties the list, the Go
bare `return` yields the unfiltered accumulated `segments` alongside the
error. -/
def SplitOnSilence (fname out : String) :
    List AudioSegment × Option String :=
  if !strContains out.data "silence_end".data then
    ([], some "could not find silence")
  else
    let raw := accumulate fname out
    let newSegments := raw.filter (fun s => 1 / 10 < s.Duration)
    if newSegments.isEmpty then (raw, some "could not find any segmenets")
    else (newSegments, none)

/-- Why a merge group was flushed: `exceeded` = the next segment would
have pushed the running total past the budget (inside the loop);
`final` = the unconditional flush after the loop. -/
inductive FlushKind where
  | exceeded
  | final
deriving DecidableEq, Repr

/-- The grouping loop of `Merge` (ffmpeg.go lines 138–165): `pending` is
`fnamesToMerge` (kept as whole segments so durations are visible),
`currentLength` the running total. Each emitted group is tagged with the
trigger that flushed it; `MergeAudioFiles` and its external concatenation
are opaque, so only the grouping is modelled. -/
def mergeRun (budget : ℚ) (pending : List AudioSegment) (currentLength : ℚ) :
    List AudioSegment → List (List AudioSegment × FlushKind)
  | [] => [(pending, FlushKind.final)]
  | seg :: rest =>
    if budget < seg.Duration + currentLength then
      (pending, FlushKind.exceeded) :: mergeRun budget [seg] seg.Duration rest
    else
      mergeRun budget (pending ++ [seg]) (currentLength + seg.Duration) rest

/-- The sequence of merge groups emitted by `Merge` for the given
segments and budget (`secondsInEachMerge`), in emission order. -/
def Merge (segments : List AudioSegment) (budget : ℚ) :
    List (List AudioSegment) :=
  (mergeRun budget [] 0 segments).map Prod.fst

/-- Summed constituent duration of a merge group. -/
def sumDuration (g : List AudioSegment) : ℚ :=
  (g.map AudioSegment.Duration).sum

/-- One extraction request issued to the external tool by `Split`
(ffmpeg.go lines 85–90): `-ss ssTime -to toTime` applied to `input`,
writing `output`. -/
structure ExtractRequest where
  input : String
  ssTime : ℚ
  toTime : ℚ
  output : String
deriving DecidableEq, Repr

/-- The `splitSegments` list returned by `Split` (ffmpeg.go lines 80–84):
each input segment with `Filename` replaced by the caller-supplied name
stem plus index plus `".wav"` and `Duration` incremented by `0.1`; Go's
struct copy keeps `Start` and `End`. -/
def SplitSegs (segments : List AudioSegment) (stem : String) :
    List AudioSegment :=
  segments.enum.map fun p =>
    { p.2 with
      Filename := stem ++ toString p.1 ++ ".wav"
      Duration := p.2.Duration + 1 / 10 }

/-- The sequence of extraction requests issued by `Split` (ffmpeg.go
lines 85–90): source file, `-ss Start`, `-to End`, and the output path
(prefixed with `"0"` when `addsilence` routes through an intermediate
file). -/
def SplitRequests (segments : List AudioSegment) (stem : String)
    (addsilence : Bool) : List ExtractRequest :=
  segments.enum.map fun p =>
    { input := p.2.Filename
      ssTime := p.2.Start
      toTime := p.2.End
      output := (if addsilence then "0" else "") ++ stem ++ toString p.1 ++ ".wav" }

/-! ## Invariant lemmas for the packer -/

/-- Loop invariant of `mergeRun`: if the running total matches the
pending group's summed duration and the pending group is within budget
(or an over-budget singleton), every emitted group is within budget or
an over-budget singleton. -/
theorem mergeRun_budget_inv (budget : ℚ) :
    ∀ (rest pending : List AudioSegment) (cl : ℚ),
      cl = sumDuration pending →
      (sumDuration pending ≤ budget ∨ ∃ s, pending = [s] ∧ budget < s.Duration) →
      ∀ g ∈ (mergeRun budget pending cl rest).map Prod.fst,
        sumDuration g ≤ budget ∨ ∃ s, g = [s] ∧ budget < s.Duration := by
  intro rest
  induction rest with
  | nil =>
    intro pending cl _ hp g hg
    simp only [mergeRun, List.map_cons, List.map_nil, List.mem_cons,
      List.not_mem_nil, or_false] at hg
    exact hg ▸ hp
  | cons seg rest ih =>
    intro pending cl hcl hp g hg
    rw [mergeRun] at hg
    by_cases h : budget < seg.Duration + cl
    · rw [if_pos h] at hg
      simp only [List.map_cons, List.mem_cons] at hg
      rcases hg with rfl | hg
      · exact hp
      · refine ih [seg] seg.Duration (by simp [sumDuration]) ?_ g hg
        by_cases hd : seg.Duration ≤ budget
        · exact Or.inl (by simpa [sumDuration] using hd)
        · exact Or.inr ⟨seg, rfl, not_le.mp hd⟩
    · rw [if_neg h] at hg
      refine ih (pending ++ [seg]) (cl + seg.Duration) ?_ ?_ g hg
      · simp [sumDuration, hcl]
      · left
        have h1 : seg.Duration + cl ≤ budget := not_lt.mp h
        have h2 : sumDuration (pending ++ [seg])
            = sumDuration pending + seg.Duration := by
          simp [sumDuration]
        rw [h2, ← hcl]
        linarith

/-- Every group emitted by `mergeRun` concatenates, with the pending
group in front, to the pending segments followed by the remaining
input. -/
theorem mergeRun_flatten (budget : ℚ) :
    ∀ (rest pending : List AudioSegment) (cl : ℚ),
      ((mergeRun budget pending cl rest).map Prod.fst).flatten
        = pending ++ rest := by
  intro rest
  induction rest with
  | nil => intro pending cl; simp [mergeRun]
  | cons seg rest ih =>
    intro pending cl
    rw [mergeRun]
    by_cases h : budget < seg.Duration + cl
    · rw [if_pos h]
      simp only [List.map_cons, List.flatten_cons, ih]
      simp
    · rw [if_neg h]
      rw [ih]
      simp

/-! ## Claims about `Merge` -/

/-- C1 (amended: non-negative budget): for segments with non-negative
durations and a non-negative budget, each merge group emitted by `Merge`
has summed constituent duration at most the budget, except a group
consisting of a single segment whose own duration exceeds the budget. -/
theorem merge_budget_bound (segments : List AudioSegment) (budget : ℚ)
    (hb : 0 ≤ budget) (_hd : ∀ s ∈ segments, 0 ≤ s.Duration) :
    ∀ g ∈ Merge segments budget,
      sumDuration g ≤ budget ∨ ∃ s, g = [s] ∧ budget < s.Duration :=
  mergeRun_budget_inv budget segments [] 0 (by simp [sumDuration])
    (Or.inl (by simpa [sumDuration] using hb))

/-- Witness for C1's theorem at a concrete input. -/
theorem merge_budget_bound_witness :
    (0 : ℚ) ≤ 5 ∧ (∀ s ∈ [(⟨"a", 0, 2, 2⟩ : AudioSegment)], 0 ≤ s.Duration) ∧
    ∀ g ∈ Merge [(⟨"a", 0, 2, 2⟩ : AudioSegment)] 5,
      sumDuration g ≤ 5 ∨ ∃ s, g = [s] ∧ 5 < s.Duration :=
  ⟨by norm_num, by decide,
    merge_budget_bound [⟨"a", 0, 2, 2⟩] 5 (by norm_num) (by decide)⟩

/-- C1 as stated is false for a negative budget: with one segment of
duration 0 and budget −1, `Merge` flushes an empty group whose summed
duration 0 exceeds the budget, and that group is not a single
over-budget segment. -/
theorem merge_budget_counterexample :
    ¬ (∀ g ∈ Merge [(⟨"a", 0, 0, 0⟩ : AudioSegment)] (-1),
        sumDuration g ≤ -1 ∨ ∃ s, g = [s] ∧ (-1 : ℚ) < s.Duration) := by
  intro h
  have h0 := h [] (by decide)
  rcases h0 with h1 | ⟨s, hs, _⟩
  · exact absurd h1 (by decide)
  · simp at hs

/-- C2: concatenating the constituent filename lists of all groups
emitted by `Merge`, in emission order, reproduces exactly the filenames
of the input sequence in their original order, for every input and
budget. -/
theorem merge_preserves_order (segments : List AudioSegment) (budget : ℚ) :
    ((Merge segments budget).map (List.map AudioSegment.Filename)).flatten
      = segments.map AudioSegment.Filename := by
  rw [← List.map_flatten, Merge, mergeRun_flatten]
  simp

/-- C3 as stated is false: with durations `[4, 4, 4]` and budget 3,
`Merge` emits four groups, not three (an empty group is flushed before
the first segment is ever accumulated). -/
theorem merge_three_over_budget_counterexample :
    (Merge [(⟨"a", 0, 4, 4⟩ : AudioSegment), ⟨"b", 4, 8, 4⟩,
      ⟨"c", 8, 12, 4⟩] 3).length ≠ 3 := by decide

/-- C3 (amended): with durations `[4, 4, 4]` and budget 3, `Merge` emits
four groups: an initial empty group and the first two singletons flushed
on the budget-exceeded trigger, and the last singleton flushed by the
unconditional end-of-input flush. -/
theorem merge_three_over_budget :
    mergeRun 3 [] 0 [(⟨"a", 0, 4, 4⟩ : AudioSegment), ⟨"b", 4, 8, 4⟩,
        ⟨"c", 8, 12, 4⟩]
      = [([], FlushKind.exceeded),
         ([⟨"a", 0, 4, 4⟩], FlushKind.exceeded),
         ([⟨"b", 4, 8, 4⟩], FlushKind.exceeded),
         ([⟨"c", 8, 12, 4⟩], FlushKind.final)]
    ∧ Merge [(⟨"a", 0, 4, 4⟩ : AudioSegment), ⟨"b", 4, 8, 4⟩,
        ⟨"c", 8, 12, 4⟩] 3
      = [[], [⟨"a", 0, 4, 4⟩], [⟨"b", 4, 8, 4⟩], [⟨"c", 8, 12, 4⟩]] := by
  constructor <;> decide

/-! ## Claims about `SplitOnSilence` -/

/-- C4 as stated is false: the guard checks for `"silence_end"`, not
`"silence_start"`. A diagnostic text containing a `silence_end` line and
a `time=` line but no `"silence_start"` substring passes the guard and
returns a segment successfully, with no error. -/
theorem silence_guard_counterexample :
    strContains "silence_end: 5.0 \ntime=7.0 x".data "silence_start".data
      = false ∧
    SplitOnSilence "f" "silence_end: 5.0 \ntime=7.0 x"
      = ([⟨"", 5, 7, 2⟩], none) := by
  constructor <;> decide

/-- C4 (amended): for every diagnostic text containing no `"silence_end"`
substring, `SplitOnSilence` fails with the `"could not find silence"`
error (and an empty segment list), rather than returning a successful
result. -/
theorem silence_guard (fname out : String)
    (h : strContains out.data "silence_end".data = false) :
    SplitOnSilence fname out = ([], some "could not find silence") := by
  rw [SplitOnSilence, h]
  simp

/-- Witness for C4's amended theorem at a concrete input. -/
theorem silence_guard_witness :
    strContains "hello".data "silence_end".data = false ∧
    SplitOnSilence "f" "hello" = ([], some "could not find silence") :=
  ⟨by decide, silence_guard "f" "hello" (by decide)⟩

/-- C5: a successful output of `SplitOnSilence` is exactly the
accumulated candidate list filtered to duration strictly above `0.1`
(preserving relative order); every output segment has duration `> 0.1`,
and a candidate with duration `≤ 0.1` never appears in the output. -/
theorem silence_filter (fname out : String) (segs : List AudioSegment)
    (h : SplitOnSilence fname out = (segs, none)) :
    segs = (accumulate fname out).filter (fun s => 1 / 10 < s.Duration) ∧
    (∀ s ∈ segs, 1 / 10 < s.Duration) ∧
    (∀ s ∈ accumulate fname out, s.Duration ≤ 1 / 10 → s ∉ segs) := by
  rw [SplitOnSilence] at h
  cases hc : strContains out.data "silence_end".data with
  | false => rw [hc] at h; simp at h
  | true =>
    rw [hc] at h
    rw [if_neg (by simp)] at h
    simp only [] at h
    split at h
    · simp at h
    · have hmain :
          segs = (accumulate fname out).filter (fun s => 1 / 10 < s.Duration) := by
        injection h with h1 _
        exact h1.symm
      refine ⟨hmain, ?_, ?_⟩
      · intro s hs
        rw [hmain] at hs
        exact of_decide_eq_true (List.mem_filter.mp hs).2
      · intro s _ hle hmem
        rw [hmain] at hmem
        exact absurd (of_decide_eq_true (List.mem_filter.mp hmem).2)
          (not_lt.mpr hle)

/-- Witness for C5's theorem at a concrete input. -/
theorem silence_filter_witness :
    SplitOnSilence "f" "silence_start: 2.0\nsilence_end: 3.0 x\ntime=4.0 x"
      = ([⟨"f", 0, 2, 2⟩, ⟨"f", 3, 4, 1⟩], none) ∧
    (([⟨"f", 0, 2, 2⟩, ⟨"f", 3, 4, 1⟩] : List AudioSegment)
        = (accumulate "f" "silence_start: 2.0\nsilence_end: 3.0 x\ntime=4.0 x").filter
            (fun s => 1 / 10 < s.Duration) ∧
      (∀ s ∈ ([⟨"f", 0, 2, 2⟩, ⟨"f", 3, 4, 1⟩] : List AudioSegment),
        1 / 10 < s.Duration) ∧
      (∀ s ∈ accumulate "f" "silence_start: 2.0\nsilence_end: 3.0 x\ntime=4.0 x",
        s.Duration ≤ 1 / 10 →
          s ∉ ([⟨"f", 0, 2, 2⟩, ⟨"f", 3, 4, 1⟩] : List AudioSegment))) :=
  ⟨by decide,
    silence_filter "f" "silence_start: 2.0\nsilence_end: 3.0 x\ntime=4.0 x"
      [⟨"f", 0, 2, 2⟩, ⟨"f", 3, 4, 1⟩] (by decide)⟩

/-- C6: if the diagnostic text passes the silence guard but every
accumulated candidate has duration at most `0.1` (so the filter removes
everything), `SplitOnSilence` fails with the
`"could not find any segmenets"` error, which is distinct from the
`"could not find silence"` error. -/
theorem silence_no_segments (fname out : String)
    (hc : strContains out.data "silence_end".data = true)
    (hall : ∀ s ∈ accumulate fname out, s.Duration ≤ 1 / 10) :
    (SplitOnSilence fname out).2 = some "could not find any segmenets" ∧
    some "could not find any segmenets" ≠ some "could not find silence" := by
  constructor
  · rw [SplitOnSilence, hc]
    have hf : (accumulate fname out).filter
        (fun s => decide (1 / 10 < s.Duration)) = [] :=
      List.filter_eq_nil_iff.mpr fun a ha => by
        simpa using not_lt.mpr (hall a ha)
    simp only [Bool.not_true, if_false, hf]
    rfl
  · decide

/-- Witness for C6's theorem at a concrete input: two candidates are
accumulated, both with duration below the threshold. -/
theorem silence_no_segments_witness :
    strContains "silence_start: 0.05\nsilence_end: 0.06 x\ntime=0.1 x".data
        "silence_end".data = true ∧
    (∀ s ∈ accumulate "f" "silence_start: 0.05\nsilence_end: 0.06 x\ntime=0.1 x",
      s.Duration ≤ 1 / 10) ∧
    (SplitOnSilence "f" "silence_start: 0.05\nsilence_end: 0.06 x\ntime=0.1 x").2
        = some "could not find any segmenets" ∧
    some "could not find any segmenets" ≠ some "could not find silence" :=
  ⟨by decide, by decide,
    silence_no_segments "f" "silence_start: 0.05\nsilence_end: 0.06 x\ntime=0.1 x"
      (by decide) (by decide)⟩

/-- C8 as stated is false: a malformed numeric field in the stream
duration (`time=`) line is also silently skipped, not propagated. Here
the `time=zz z` line fails to parse, yet `SplitOnSilence` succeeds with
no error (the segment from the `silence_start` line survives). -/
theorem time_parse_counterexample :
    convertToSeconds (getBetween "time=zz z".data "time=".data " ".data)
      = none ∧
    SplitOnSilence "f" "silence_start: 2.0\nsilence_end: 3.0 x\ntime=zz z"
      = ([⟨"f", 0, 2, 2⟩], none) := by
  constructor <;> decide

/-- C8 (amended): a malformed numeric field in a `silence_start`,
`silence_end` or `time=` line is silently skipped with segmenter state
unchanged — all three branches alike — and no line-level parse failure is
ever propagated: the only errors `SplitOnSilence` can return are the
no-silence and no-segments errors. -/
theorem line_parse_skip :
    (∀ (fname : String) (st : AudioSegment × List AudioSegment)
        (line : List Char),
      (strContains line "silence_start".data = true →
        convertToSeconds
          (getBetween (line ++ [' ']) "silence_start: ".data " ".data) = none) →
      (strContains line "silence_end".data = true →
        convertToSeconds (getBetween line "silence_end: ".data " ".data)
          = none) →
      (strContains line "time=".data = true →
        convertToSeconds (getBetween line "time=".data " ".data) = none) →
      lineStep fname st line = st) ∧
    (∀ fname out : String,
      (SplitOnSilence fname out).2 = none ∨
      (SplitOnSilence fname out).2 = some "could not find silence" ∨
      (SplitOnSilence fname out).2 = some "could not find any segmenets") := by
  constructor
  · intro fname st line h1 h2 h3
    rw [lineStep]
    cases hc1 : strContains line "silence_start".data with
    | true => simp [hc1, h1 hc1]
    | false =>
      cases hc2 : strContains line "silence_end".data with
      | true => simp [hc1, hc2, h2 hc2]
      | false =>
        cases hc3 : strContains line "time=".data with
        | true => simp [hc1, hc2, hc3, h3 hc3]
        | false => simp [hc1, hc2, hc3]
  · intro fname out
    rw [SplitOnSilence]
    rcases Bool.eq_false_or_eq_true
        (strContains out.data "silence_end".data) with hc | hc
    · rw [hc, if_neg (by simp)]
      simp only []
      split
      · right; right; rfl
      · left; rfl
    · rw [hc]
      right; left; rfl

/-- Witness for C8's amended theorem: the malformed `time=` line leaves
the state untouched, and a concrete run returns one of the two fixed
errors. -/
theorem line_parse_skip_witness :
    lineStep "f" (⟨"", 0, 0, 0⟩, []) "time=zz z".data = (⟨"", 0, 0, 0⟩, []) ∧
    ((SplitOnSilence "f" "hello").2 = none ∨
     (SplitOnSilence "f" "hello").2 = some "could not find silence" ∨
     (SplitOnSilence "f" "hello").2 = some "could not find any segmenets") :=
  ⟨line_parse_skip.1 "f" (⟨"", 0, 0, 0⟩, []) "time=zz z".data
      (by decide) (by decide) (by decide),
    line_parse_skip.2 "f" "hello"⟩

/-- C10 as stated is false: when no candidate at all is accumulated (the
single `silence_end` line has a malformed number, so nothing is ever
appended), the no-segments error is returned together with an *empty*
segment list. -/
theorem no_segments_empty_counterexample :
    SplitOnSilence "f" "silence_end: abc"
      = ([], some "could not find any segmenets") := by
  decide

/-- C10 (amended): when `SplitOnSilence` fails with the no-segments
error, the returned list is exactly the unfiltered accumulated candidate
list (not the filtered result); it is non-empty whenever at least one
candidate was accumulated, but empty when none was. -/
theorem no_segments_returns_raw (fname out : String)
    (h : (SplitOnSilence fname out).2 = some "could not find any segmenets") :
    (SplitOnSilence fname out).1 = accumulate fname out ∧
    (accumulate fname out ≠ [] → (SplitOnSilence fname out).1 ≠ []) := by
  rw [SplitOnSilence] at h ⊢
  rcases Bool.eq_false_or_eq_true
      (strContains out.data "silence_end".data) with hc | hc
  · rw [hc] at h ⊢
    rw [if_neg (by simp)] at h ⊢
    simp only [] at h ⊢
    split at h
    · rename_i hEmpty
      rw [if_pos hEmpty]
      exact ⟨rfl, fun hne => hne⟩
    · simp at h
  · rw [hc] at h
    simp at h

/-- Witness for C10's amended theorem: both accumulated candidates fall
below the duration threshold, and the error result carries the raw
non-empty candidate list. -/
theorem no_segments_returns_raw_witness :
    (SplitOnSilence "f" "silence_start: 0.05\nsilence_end: 0.06 x\ntime=0.09 x").2
        = some "could not find any segmenets" ∧
    ((SplitOnSilence "f" "silence_start: 0.05\nsilence_end: 0.06 x\ntime=0.09 x").1
        = accumulate "f" "silence_start: 0.05\nsilence_end: 0.06 x\ntime=0.09 x" ∧
      (accumulate "f" "silence_start: 0.05\nsilence_end: 0.06 x\ntime=0.09 x" ≠ [] →
        (SplitOnSilence "f"
          "silence_start: 0.05\nsilence_end: 0.06 x\ntime=0.09 x").1 ≠ [])) :=
  ⟨by decide,
    no_segments_returns_raw "f"
      "silence_start: 0.05\nsilence_end: 0.06 x\ntime=0.09 x" (by decide)⟩

/-! ## Claims about `Split` -/

/-- C7 as stated is false: the extraction request for a segment with
`Start = 1`, `End = 2` covers exactly `[1, 2]` — the `-to` bound is the
segment's `End`, not `End + 0.1` (no positive margin is added to the
requested range). -/
theorem split_range_counterexample :
    SplitRequests [(⟨"in.wav", 1, 2, 1⟩ : AudioSegment)] "p" false
      = [⟨"in.wav", 1, 2, "p0.wav"⟩] ∧
    (2 : ℚ) ≠ 2 + 1 / 10 := by
  constructor <;> decide

/-- C7 (amended): for every input segment at index `i`, `Split` requests
an extraction of the exact time range `[Start, End]` (no margin) from the
segment's source file into the output named by the caller-supplied stem
followed by `i` and `".wav"` (with a leading `"0"` for the intermediate
file when silence padding is requested); the fixed `0.1` constant is
added only to the returned segment's `Duration` field. -/
theorem split_requests_range (segments : List AudioSegment) (stem : String)
    (addsilence : Bool) (i : Nat) (h : i < segments.length) :
    (SplitRequests segments stem addsilence)[i]? =
      some { input := (segments.get ⟨i, h⟩).Filename
             ssTime := (segments.get ⟨i, h⟩).Start
             toTime := (segments.get ⟨i, h⟩).End
             output := (if addsilence then "0" else "")
               ++ stem ++ toString i ++ ".wav" } := by
  rw [SplitRequests, List.getElem?_map, List.getElem?_enum,
    List.getElem?_eq_getElem h]
  rfl

/-- Witness for C7's amended theorem at a concrete input. -/
theorem split_requests_range_witness :
    0 < [(⟨"in.wav", 1, 2, 1⟩ : AudioSegment)].length ∧
    (SplitRequests [(⟨"in.wav", 1, 2, 1⟩ : AudioSegment)] "p" true)[0]? =
      some ⟨"in.wav", 1, 2, "0p0.wav"⟩ :=
  ⟨by decide,
    (split_requests_range [⟨"in.wav", 1, 2, 1⟩] "p" true 0
      (by decide)).trans (by decide)⟩

/-- C9: the segment returned by `Split` at index `i` keeps the input
segment's `Start` and `End` unchanged; only the `Filename` is replaced
(stem, index, `".wav"`) and the `Duration` is the input's `Duration`
plus exactly `0.1`, so when the input satisfied
`Duration = End - Start` the returned segment no longer does. -/
theorem split_segments_frame (segments : List AudioSegment) (stem : String)
    (i : Nat) (h : i < segments.length) :
    ∃ t, (SplitSegs segments stem)[i]? = some t ∧
      t.Start = (segments.get ⟨i, h⟩).Start ∧
      t.End = (segments.get ⟨i, h⟩).End ∧
      t.Filename = stem ++ toString i ++ ".wav" ∧
      t.Duration = (segments.get ⟨i, h⟩).Duration + 1 / 10 ∧
      ((segments.get ⟨i, h⟩).Duration
          = (segments.get ⟨i, h⟩).End - (segments.get ⟨i, h⟩).Start →
        t.Duration ≠ t.End - t.Start) := by
  refine ⟨{ segments.get ⟨i, h⟩ with
      Filename := stem ++ toString i ++ ".wav"
      Duration := (segments.get ⟨i, h⟩).Duration + 1 / 10 },
    ?_, rfl, rfl, rfl, rfl, ?_⟩
  · rw [SplitSegs, List.getElem?_map, List.getElem?_enum,
      List.getElem?_eq_getElem h]
    rfl
  · intro hd heq
    simp only at heq
    rw [hd] at heq
    linarith [heq]

/-- Witness for C9's theorem at a concrete input. -/
theorem split_segments_frame_witness :
    0 < [(⟨"a", 1, 2, 1⟩ : AudioSegment)].length ∧
    ∃ t, (SplitSegs [(⟨"a", 1, 2, 1⟩ : AudioSegment)] "p")[0]? = some t ∧
      t.Start = 1 ∧ t.End = 2 ∧ t.Filename = "p0.wav" ∧
      t.Duration = 1 + 1 / 10 ∧
      ((1 : ℚ) = 2 - 1 → t.Duration ≠ t.End - t.Start) :=
  ⟨by decide, split_segments_frame [⟨"a", 1, 2, 1⟩] "p" 0 (by decide)⟩

end Teoperator
